import Mathlib

/-!
Verification of the message-normalization pipeline of `main.py`
(takeout-to-pdf): a shallow embedding of `decode_mime`,
`_extract_body_part`, `_decode_body`, `_extract_images`, `process_email`
and the module-level date sort, together with theorems settling the
specification's claims about them.

Bytes are modelled as `Fin 256`; Python exceptions are modelled with
`Except String`; `None`-able values with `Option`.
-/

namespace TakeoutToPdf

/-- A byte, as produced by `get_payload(decode=True)`. -/
abbrev Byte := Fin 256

/-! ## Base64 (model of `base64.b64encode`, plus a decoder for round-trips) -/

/-- The standard base64 alphabet, as used by `base64.b64encode`. -/
def b64Alphabet : List Char :=
  ['A', 'B', 'C', 'D', 'E', 'F', 'G', 'H', 'I', 'J', 'K', 'L', 'M',
   'N', 'O', 'P', 'Q', 'R', 'S', 'T', 'U', 'V', 'W', 'X', 'Y', 'Z',
   'a', 'b', 'c', 'd', 'e', 'f', 'g', 'h', 'i', 'j', 'k', 'l', 'm',
   'n', 'o', 'p', 'q', 'r', 's', 't', 'u', 'v', 'w', 'x', 'y', 'z',
   '0', '1', '2', '3', '4', '5', '6', '7', '8', '9', '+', '/']

/-- Character for a 6-bit group. -/
def b64char (s : Fin 64) : Char := b64Alphabet.getD s.val 'A'

/-- Inverse lookup in the base64 alphabet. -/
def sextetOfChar (c : Char) : Option (Fin 64) :=
  let i := b64Alphabet.indexOf c
  if h : i < 64 then some ⟨i, h⟩ else none

/-- First sextet of a 3-byte group: high 6 bits of byte 0. -/
def hi6 (b0 : Byte) : Fin 64 :=
  ⟨b0.val / 4, by have := b0.isLt; omega⟩

/-- Second sextet: low 2 bits of byte 0 and high 4 bits of byte 1. -/
def mid6 (b0 b1 : Byte) : Fin 64 :=
  ⟨(b0.val % 4) * 16 + b1.val / 16, by have := b1.isLt; omega⟩

/-- Third sextet: low 4 bits of byte 1 and high 2 bits of byte 2. -/
def lo6 (b1 b2 : Byte) : Fin 64 :=
  ⟨(b1.val % 16) * 4 + b2.val / 64, by have := b2.isLt; omega⟩

/-- Fourth sextet: low 6 bits of byte 2. -/
def end6 (b2 : Byte) : Fin 64 :=
  ⟨b2.val % 64, by omega⟩

/-- Reassemble byte 0 from the first two sextets. -/
def byteA (s0 s1 : Fin 64) : Byte :=
  ⟨s0.val * 4 + s1.val / 16, by have := s0.isLt; have := s1.isLt; omega⟩

/-- Reassemble byte 1 from the middle two sextets. -/
def byteB (s1 s2 : Fin 64) : Byte :=
  ⟨(s1.val % 16) * 16 + s2.val / 4, by have := s2.isLt; omega⟩

/-- Reassemble byte 2 from the last two sextets. -/
def byteC (s2 s3 : Fin 64) : Byte :=
  ⟨(s2.val % 4) * 64 + s3.val, by have := s3.isLt; omega⟩

/-- The all-zero byte used for base64 padding bits. -/
def zeroByte : Byte := ⟨0, by omega⟩

/-- Base64 encoding of a byte sequence, with `'='` padding, exactly as
`base64.b64encode` produces it. -/
def b64encode : List Byte → List Char
  | [] => []
  | [b0] => [b64char (hi6 b0), b64char (mid6 b0 zeroByte), '=', '=']
  | [b0, b1] => [b64char (hi6 b0), b64char (mid6 b0 b1), b64char (lo6 b1 zeroByte), '=']
  | b0 :: b1 :: b2 :: rest =>
      b64char (hi6 b0) :: b64char (mid6 b0 b1) :: b64char (lo6 b1 b2) ::
        b64char (end6 b2) :: b64encode rest

/-- Base64 decoding (the inverse direction used to state round-trips). -/
def b64decode : List Char → Option (List Byte)
  | [] => some []
  | a :: b :: c :: d :: rest =>
    match sextetOfChar a, sextetOfChar b with
    | some s0, some s1 =>
      if c = '=' then
        if d = '=' ∧ rest = [] then some [byteA s0 s1] else none
      else
        match sextetOfChar c with
        | some s2 =>
          if d = '=' then
            if rest = [] then some [byteA s0 s1, byteB s1 s2] else none
          else
            match sextetOfChar d with
            | some s3 =>
              (b64decode rest).map fun bs => byteA s0 s1 :: byteB s1 s2 :: byteC s2 s3 :: bs
            | none => none
        | none => none
    | _, _ => none
  | _ => none

/-- `base64.b64encode(...).decode("ascii")` as a `String`. -/
def b64encodeString (bs : List Byte) : String := String.mk (b64encode bs)

/-- String-level base64 decoding. -/
def b64decodeString (s : String) : Option (List Byte) := b64decode s.data

theorem sextetOfChar_b64char : ∀ s : Fin 64, sextetOfChar (b64char s) = some s := by
  decide

theorem b64char_ne_pad : ∀ s : Fin 64, b64char s ≠ '=' := by
  decide

theorem byteA_reassemble (b0 b1 : Byte) : byteA (hi6 b0) (mid6 b0 b1) = b0 := by
  have h0 := b0.isLt
  have h1 := b1.isLt
  apply Fin.ext
  simp only [byteA, hi6, mid6]
  omega

theorem byteB_reassemble (b0 b1 b2 : Byte) : byteB (mid6 b0 b1) (lo6 b1 b2) = b1 := by
  have h0 := b0.isLt
  have h1 := b1.isLt
  have h2 := b2.isLt
  apply Fin.ext
  simp only [byteB, mid6, lo6]
  omega

theorem byteC_reassemble (b1 b2 : Byte) : byteC (lo6 b1 b2) (end6 b2) = b2 := by
  have h1 := b1.isLt
  have h2 := b2.isLt
  apply Fin.ext
  simp only [byteC, lo6, end6]
  omega

theorem b64_roundtrip : ∀ bs : List Byte, b64decode (b64encode bs) = some bs
  | [] => rfl
  | [b0] => by
    simp [b64encode, b64decode, sextetOfChar_b64char, byteA_reassemble b0 zeroByte]
  | [b0, b1] => by
    simp [b64encode, b64decode, sextetOfChar_b64char, b64char_ne_pad,
      byteA_reassemble b0 b1, byteB_reassemble b0 b1 zeroByte]
  | b0 :: b1 :: b2 :: rest => by
    have ih := b64_roundtrip rest
    simp [b64encode, b64decode, sextetOfChar_b64char, b64char_ne_pad, ih,
      byteA_reassemble b0 b1, byteB_reassemble b0 b1 b2, byteC_reassemble b1 b2]

/-! ## Character-set decoding (model of `bytes.decode(name, errors="replace")`)

The source calls the standard `bytes.decode` with `errors="replace"`:
with a recognized codec name it always returns text (invalid sequences
become U+FFFD), and with an unrecognized name it raises `LookupError`
before looking at any byte.  That failure structure is what the embedded
model captures. -/

/-- U+FFFD, the substitution character used by `errors="replace"`. -/
def replChar : Char := Char.ofNat 0xFFFD

/-- Latin-1: every byte maps directly to the code point of the same value,
so this decoding is total. -/
def latin1Decode (bs : List Byte) : String :=
  String.mk (bs.map fun b => Char.ofNat b.val)

/-- ASCII with substitution: bytes ≥ 0x80 become U+FFFD. -/
def asciiReplaceDecode (bs : List Byte) : String :=
  String.mk (bs.map fun b => if b.val < 128 then Char.ofNat b.val else replChar)

/-- Is `b` a UTF-8 continuation byte (`0x80..0xBF`)? -/
def isContByte (b : Byte) : Bool := 0x80 ≤ b.val ∧ b.val < 0xC0

/-- UTF-8 decoding with substitution for malformed sequences.  The fuel
argument (at least the list length at every call) keeps the recursion
structural; each step consumes at least one byte. -/
def utf8ReplaceFuel : Nat → List Byte → List Char
  | 0, _ => []
  | _ + 1, [] => []
  | fuel + 1, b :: rest =>
    if b.val < 0x80 then Char.ofNat b.val :: utf8ReplaceFuel fuel rest
    else if b.val < 0xC2 then replChar :: utf8ReplaceFuel fuel rest
    else if b.val < 0xE0 then
      match rest with
      | b2 :: rest2 =>
        if isContByte b2 then
          Char.ofNat ((b.val - 0xC0) * 64 + (b2.val - 0x80)) :: utf8ReplaceFuel fuel rest2
        else replChar :: utf8ReplaceFuel fuel rest
      | [] => [replChar]
    else if b.val < 0xF0 then
      match rest with
      | b2 :: b3 :: rest3 =>
        if isContByte b2 ∧ isContByte b3 then
          Char.ofNat ((b.val - 0xE0) * 4096 + (b2.val - 0x80) * 64 + (b3.val - 0x80)) ::
            utf8ReplaceFuel fuel rest3
        else replChar :: utf8ReplaceFuel fuel rest
      | _ => replChar :: utf8ReplaceFuel fuel rest
    else if b.val < 0xF5 then
      match rest with
      | b2 :: b3 :: b4 :: rest4 =>
        if isContByte b2 ∧ isContByte b3 ∧ isContByte b4 then
          Char.ofNat ((b.val - 0xF0) * 262144 + (b2.val - 0x80) * 4096 +
              (b3.val - 0x80) * 64 + (b4.val - 0x80)) :: utf8ReplaceFuel fuel rest4
        else replChar :: utf8ReplaceFuel fuel rest
      | _ => replChar :: utf8ReplaceFuel fuel rest
    else replChar :: utf8ReplaceFuel fuel rest

/-- UTF-8 with substitution, packaged as a `String`. -/
def utf8ReplaceDecode (bs : List Byte) : String :=
  String.mk (utf8ReplaceFuel bs.length bs)

/-- Lower-case an ASCII letter (codec lookup is case-insensitive). -/
def lowerChar (c : Char) : Char :=
  if 'A' ≤ c ∧ c ≤ 'Z' then Char.ofNat (c.toNat + 32) else c

/-- Codec-name normalization (Python's codec lookup is case-insensitive). -/
def normEncName (s : String) : String := String.mk (s.data.map lowerChar)

/-- Codec names the model recognizes (aliases of UTF-8, Latin-1 and ASCII). -/
def latinNames : List String := ["latin-1", "latin1", "latin", "iso-8859-1", "iso8859-1", "cp819"]

/-- ASCII aliases. -/
def asciiNames : List String := ["ascii", "us-ascii", "646"]

/-- UTF-8 aliases. -/
def utf8Names : List String := ["utf-8", "utf8", "u8", "utf"]

/-- Boolean membership test on codec-name lists. -/
def memStr (s : String) (l : List String) : Bool := l.any fun t => t = s

/-- Does Python's codec registry recognize this name (within the model)? -/
def knownEncoding (name : String) : Bool :=
  memStr (normEncName name) latinNames || memStr (normEncName name) asciiNames ||
    memStr (normEncName name) utf8Names

/-- Decode bytes under a recognized codec with `errors="replace"`: total. -/
def decodeKnown (name : String) (bs : List Byte) : String :=
  if memStr (normEncName name) latinNames then latin1Decode bs
  else if memStr (normEncName name) asciiNames then asciiReplaceDecode bs
  else utf8ReplaceDecode bs

/-- `bytes.decode(name, errors="replace")`: `LookupError` when the codec
name is unrecognized, text otherwise. -/
def decodeReplace (name : String) (bs : List Byte) : Except String String :=
  if knownEncoding name then .ok (decodeKnown name bs)
  else .error ("LookupError: unknown encoding: " ++ name)

/-! ## Header Decoder: `decode_mime`

`email.header.decode_header` splits a raw header into segments, each a
literal string or a byte sequence tagged with an optional charset name.
`decode_mime` consumes that segment list. -/

/-- One segment of `decode_header`'s result. -/
inductive HeaderSeg where
  | text (s : String)
  | bytes (b : List Byte) (enc : Option String)
deriving DecidableEq

/-- The per-segment decoding inside `decode_mime`'s loop: declared charset
(default "utf-8") with substitution, Latin-1 retry on decode error, and a
`"[Decode Error: …]"` placeholder if the retry also failed. -/
def decodeSeg : HeaderSeg → String
  | .text s => s
  | .bytes b enc =>
    match decodeReplace (enc.getD "utf-8") b with
    | .ok s => s
    | .error _ =>
      match decodeReplace "latin-1" b with
      | .ok s => s
      | .error e => "[Decode Error: " ++ e ++ "]"

/-- `decode_mime`: decode every segment and join with single spaces. -/
def decode_mime (segs : List HeaderSeg) : String :=
  String.intercalate " " (segs.map decodeSeg)

theorem decodeReplace_latin1 (bs : List Byte) :
    decodeReplace "latin-1" bs = .ok (latin1Decode bs) := by
  have h1 : knownEncoding "latin-1" = true := by decide
  have h2 : memStr (normEncName "latin-1") latinNames = true := by decide
  simp [decodeReplace, decodeKnown, h1, h2]

/-! ## Data model: parts, messages, image payloads, records

A `Part` carries the fields the pipeline reads: `get_content_type()`,
the declared charset parameter consulted by `get_content_charset`, and
the outcome of `get_payload(decode=True)` (raised exception, `None`, or
bytes).  A multipart message's `walk()` is modelled as the list of items
the generator yields in tree order; a step of the iteration itself may
raise, which is an `Except.error` item. -/

deriving instance DecidableEq for Except

/-- One MIME part, with the fields the source reads. -/
structure Part where
  contentType : String
  charsetParam : Option String
  payloadResult : Except String (Option (List Byte))
deriving DecidableEq

/-- `get_content_maintype()`: the piece of the content type before `/`. -/
def Part.mainType (p : Part) : String :=
  String.mk (p.contentType.data.takeWhile fun c => c ≠ '/')

/-- One entry of the `images` list: a dict with `mime_type` and `data`. -/
structure ImagePayload where
  mime_type : String
  data : String
deriving DecidableEq

/-- An input message, with the headers and structure `process_email`
reads.  Header values are `None` when absent; `from`/`subject` are
modelled at the granularity `decode_header` hands to `decode_mime`. -/
structure Message where
  dateHeader : Option String
  fromSegs : List HeaderSeg
  subjectSegs : List HeaderSeg
  multipart : Bool
  walkItems : List (Except String Part)
  self : Part

/-! ## Body Selector: `_extract_body_part` -/

/-- The multipart loop of `_extract_body_part`: remember the most recent
HTML part, stop at the first plain-text part.  A raising walk step
propagates (there is no handler in `_extract_body_part`). -/
def extract_body_part_go :
    List (Except String Part) → Option Part → Except String (Option Part × Option Part)
  | [], htmlPart => .ok (none, htmlPart)
  | .error e :: _, _ => .error e
  | .ok p :: rest, htmlPart =>
    if p.contentType = "text/plain" then .ok (some p, htmlPart)
    else if p.contentType = "text/html" then extract_body_part_go rest (some p)
    else extract_body_part_go rest htmlPart

/-- `_extract_body_part`: returns `(text_part, html_part)`. -/
def extract_body_part (m : Message) : Except String (Option Part × Option Part) :=
  if m.multipart then extract_body_part_go m.walkItems none
  else if m.self.contentType = "text/plain" ∨ m.self.contentType = "text/html" then
    .ok (some m.self, none)
  else .ok (none, none)

/-! ## Body Decoder: `_decode_body` -/

/-- Python's `str.strip()`: drop leading and trailing whitespace. -/
def stripWs (s : String) : String :=
  String.mk (((s.data.dropWhile Char.isWhitespace).reverse.dropWhile Char.isWhitespace).reverse)

/-- Cut an HTML character stream into its text runs (the text between
tags), the node texts BeautifulSoup's `get_text` walks. -/
def htmlTextRuns : Bool → List Char → List Char → List String
  | _, acc, [] => [String.mk acc.reverse]
  | false, acc, '<' :: cs => String.mk acc.reverse :: htmlTextRuns true [] cs
  | false, acc, c :: cs => htmlTextRuns false (c :: acc) cs
  | true, _, '>' :: cs => htmlTextRuns false [] cs
  | true, acc, _ :: cs => htmlTextRuns true acc cs

/-- `BeautifulSoup(...).get_text(separator="\n", strip=True)`: strip each
text run, drop the empty ones, join with newlines. -/
def htmlToText (s : String) : String :=
  String.intercalate "\n"
    (((htmlTextRuns false [] s.data).map stripWs).filter fun r => r ≠ "")

/-- The `str(e)` of the `AttributeError` raised when the payload is `None`. -/
def noneAttrError : String := "'NoneType' object has no attribute 'decode'"

/-- `_decode_body`: declared-charset decode with substitution, Latin-1
retry on `UnicodeDecodeError`/`LookupError`, HTML stripped to text on the
successful primary path, `[Body decode error: …]` on any other failure. -/
def decode_body (p : Part) : String :=
  match p.payloadResult with
  | .error e => "[Body decode error: " ++ e ++ "]"
  | .ok none => "[Body decode error: " ++ noneAttrError ++ "]"
  | .ok (some bs) =>
    match decodeReplace (p.charsetParam.getD "utf-8") bs with
    | .error _ => stripWs (latin1Decode bs)
    | .ok bodyContent =>
      if p.contentType = "text/html" then htmlToText bodyContent
      else stripWs bodyContent

/-! ## Attachment Extractor: `_extract_images` -/

/-- The walk loop of `_extract_images`.  A successful image decode with
non-empty bytes appends a base64 entry; a raising decode appends an
`"Image error: …"` diagnostic (the per-image handler); an empty or
absent payload appends nothing; a raising walk step hits the top-level
handler, which appends an `"Image extraction failed: …"` diagnostic to
the images collected so far and ends the loop. -/
def extract_images_go : List (Except String Part) → List ImagePayload → List ImagePayload
  | [], acc => acc
  | .error e :: _, acc => acc ++ [⟨"text/plain", "Image extraction failed: " ++ e⟩]
  | .ok p :: rest, acc =>
    if p.mainType = "image" then
      match p.payloadResult with
      | .ok none => extract_images_go rest acc
      | .ok (some bs) =>
        if bs = [] then extract_images_go rest acc
        else extract_images_go rest (acc ++ [⟨p.contentType, b64encodeString bs⟩])
      | .error e => extract_images_go rest (acc ++ [⟨"text/plain", "Image error: " ++ e⟩])
    else extract_images_go rest acc

/-- `_extract_images`: non-multipart messages yield `[]`. -/
def extract_images (m : Message) : List ImagePayload :=
  if m.multipart then extract_images_go m.walkItems [] else []

/-! ## Date parsing: `email.utils.parsedate_to_datetime`

Modelled on the RFC 2822 date grammar that function accepts: optional
day-of-week with comma, day, month name, year, `HH:MM[:SS]`, optional
zone.  Anything else raises `ValueError`. -/

/-- Split a character list at a separator (keeping empty pieces, like
Python's `str.split` with an explicit separator). -/
def splitChars (sep : Char) : List Char → List Char → List (List Char)
  | acc, [] => [acc.reverse]
  | acc, c :: cs =>
    if c = sep then acc.reverse :: splitChars sep [] cs
    else splitChars sep (c :: acc) cs

/-- A token's decimal value; `none` when empty or not all digits. -/
def digitsToNat (cs : List Char) : Option Nat :=
  if cs = [] then none
  else if cs.all Char.isDigit then
    some (cs.foldl (fun n c => n * 10 + (c.toNat - 48)) 0)
  else none

/-- Month names of the date grammar. -/
def monthNum (s : String) : Option Nat :=
  match s with
  | "Jan" => some 1 | "Feb" => some 2 | "Mar" => some 3 | "Apr" => some 4
  | "May" => some 5 | "Jun" => some 6 | "Jul" => some 7 | "Aug" => some 8
  | "Sep" => some 9 | "Oct" => some 10 | "Nov" => some 11 | "Dec" => some 12
  | _ => none

/-- Parse `HH:MM:SS` or `HH:MM`. -/
def parseTime (t : List Char) : Option (Nat × Nat × Nat) :=
  match (splitChars ':' [] t).map digitsToNat with
  | [some h, some mi, some sec] =>
    if h < 24 ∧ mi < 60 ∧ sec < 61 then some (h, mi, sec) else none
  | [some h, some mi] => if h < 24 ∧ mi < 60 then some (h, mi, 0) else none
  | _ => none

/-- `parsedate_to_datetime`: a timestamp on success (a totally ordered
instant; calendar nuances are irrelevant to the pipeline), `ValueError`
on anything the grammar rejects. -/
def parsedate_to_datetime (s : String) : Except String Nat :=
  let toks := (splitChars ' ' [] s.data).filter fun t => t ≠ []
  let toks := match toks with
    | t :: rest => if t.getLast? = some ',' then rest else t :: rest
    | [] => []
  match toks with
  | day :: mon :: year :: time :: _ =>
    match digitsToNat day, monthNum (String.mk mon), digitsToNat year, parseTime time with
    | some d, some mo, some y, some (h, mi, sec) =>
      if 1 ≤ d ∧ d ≤ 31 then
        .ok (((((y * 12 + mo) * 32 + d) * 24 + h) * 60 + mi) * 60 + sec)
      else .error "ValueError: invalid date"
    | _, _, _, _ => .error "ValueError: invalid date"
  | _ => .error "ValueError: invalid date"

/-! ## Message Normalizer: `process_email` -/

/-- The record `process_email` builds (the `email_data` dict). -/
structure EmailData where
  date : Option Nat
  fromAddr : String
  subject : String
  body : String
  images : List ImagePayload
deriving DecidableEq

/-- `process_email`.  The date line has no exception handler: when the
header is present (and non-empty, hence truthy) an unparsable value
raises out of the function.  A raising body walk also propagates.  All
other sub-steps are total. -/
def process_email (m : Message) : Except String EmailData := do
  let date : Option Nat ←
    match m.dateHeader with
    | none => pure none
    | some d => if d = "" then pure none else (parsedate_to_datetime d).map some
  let fromAddr := decode_mime m.fromSegs
  let fromAddr := if fromAddr = "" then "Unknown Sender" else fromAddr
  let subject := decode_mime m.subjectSegs
  let subject := if subject = "" then "No Subject" else subject
  let parts ← extract_body_part m
  let body := match parts.1 <|> parts.2 with
    | some targetPart =>
      let b := decode_body targetPart
      if b = "" then "[Empty content]" else b
    | none => "[No content available]"
  pure ⟨date, fromAddr, subject, body, extract_images m⟩

/-! ## Ordering Stage: the module-level sort

`sorted` in Python is a stable sort by key; a stable sort by a key into
a linear order is unique, so it is modelled by insertion sort. -/

/-- The sort key `lambda x: x["date"]` (only applied to dated records). -/
def dateKey (e : EmailData) : Nat := e.date.getD 0

/-- Comparison used by the sort. -/
def dateLE (a b : EmailData) : Prop := dateKey a ≤ dateKey b

instance : DecidableRel dateLE := fun a b => Nat.decLe (dateKey a) (dateKey b)

instance : IsTotal EmailData dateLE := ⟨fun a b => Nat.le_total (dateKey a) (dateKey b)⟩

instance : IsTrans EmailData dateLE := ⟨fun _ _ _ => Nat.le_trans⟩

/-- The module-level ordering: dated records stably sorted ascending,
then the undated ones in their original order. -/
def order (l : List EmailData) : List EmailData :=
  (l.filter fun e => e.date.isSome).insertionSort dateLE
    ++ l.filter fun e => e.date.isNone

/-! ## Helper lemmas about the extraction loops -/

/-- The entry (if any) that the image loop appends for one walked part:
a base64 payload for a non-empty decode, an `"Image error"` diagnostic
for a raising decode, nothing for an empty or absent payload or a
non-image part. -/
def image_part_entry (p : Part) : Option ImagePayload :=
  if p.mainType = "image" then
    match p.payloadResult with
    | .ok none => none
    | .ok (some bs) =>
      if bs = [] then none else some ⟨p.contentType, b64encodeString bs⟩
    | .error e => some ⟨"text/plain", "Image error: " ++ e⟩
  else none

theorem extract_images_go_ok : ∀ (parts : List Part) (acc : List ImagePayload),
    extract_images_go (parts.map Except.ok) acc = acc ++ parts.filterMap image_part_entry
  | [], acc => by simp [extract_images_go]
  | p :: rest, acc => by
    have ih := extract_images_go_ok rest
    by_cases himg : p.mainType = "image"
    · rcases hp : p.payloadResult with e | ob
      · simp [extract_images_go, image_part_entry, himg, hp, ih]
      · rcases ob with _ | bs
        · simp [extract_images_go, image_part_entry, himg, hp, ih]
        · by_cases hbs : bs = []
          · simp [extract_images_go, image_part_entry, himg, hp, hbs, ih]
          · simp [extract_images_go, image_part_entry, himg, hp, hbs, ih]
    · simp [extract_images_go, image_part_entry, himg, ih]

theorem extract_images_go_fault : ∀ (parts : List Part) (e : String)
    (rest : List (Except String Part)) (acc : List ImagePayload),
    extract_images_go (parts.map Except.ok ++ .error e :: rest) acc
      = acc ++ parts.filterMap image_part_entry
          ++ [⟨"text/plain", "Image extraction failed: " ++ e⟩]
  | [], e, rest, acc => by simp [extract_images_go]
  | p :: parts, e, rest, acc => by
    have ih := extract_images_go_fault parts e rest
    by_cases himg : p.mainType = "image"
    · rcases hp : p.payloadResult with e' | ob
      · simp [extract_images_go, image_part_entry, himg, hp, ih]
      · rcases ob with _ | bs
        · simp [extract_images_go, image_part_entry, himg, hp, ih]
        · by_cases hbs : bs = []
          · simp [extract_images_go, image_part_entry, himg, hp, hbs, ih]
          · simp [extract_images_go, image_part_entry, himg, hp, hbs, ih]
    · simp [extract_images_go, image_part_entry, himg, ih]

theorem extract_body_part_go_cand : ∀ (parts : List Part) (acc : Option Part),
    ∃ fb, extract_body_part_go (parts.map Except.ok) acc
      = .ok (parts.find? fun p => p.contentType = "text/plain", fb)
  | [], acc => ⟨acc, by simp [extract_body_part_go]⟩
  | p :: rest, acc => by
    by_cases hpl : p.contentType = "text/plain"
    · exact ⟨acc, by simp [extract_body_part_go, List.find?_cons, hpl]⟩
    · by_cases hht : p.contentType = "text/html"
      · obtain ⟨fb, hfb⟩ := extract_body_part_go_cand rest (some p)
        exact ⟨fb, by simp [extract_body_part_go, List.find?_cons, hpl, hht, hfb]⟩
      · obtain ⟨fb, hfb⟩ := extract_body_part_go_cand rest acc
        exact ⟨fb, by simp [extract_body_part_go, List.find?_cons, hpl, hht, hfb]⟩

theorem getLast?_cons_orElse : ∀ (a : α) (l : List α),
    (a :: l).getLast? = (l.getLast?).orElse fun _ => some a
  | _, [] => rfl
  | a, b :: l => by
    rw [List.getLast?_cons_cons, getLast?_cons_orElse b l]
    cases l.getLast? <;> simp [Option.orElse]

theorem extract_body_part_go_noplain : ∀ (parts : List Part) (acc : Option Part),
    (∀ p ∈ parts, p.contentType ≠ "text/plain") →
    extract_body_part_go (parts.map Except.ok) acc
      = .ok (none,
          ((parts.filter fun p => p.contentType = "text/html").getLast?).orElse fun _ => acc)
  | [], acc, _ => by simp [extract_body_part_go, Option.orElse]
  | p :: rest, acc, h => by
    have hpl : p.contentType ≠ "text/plain" := h p (List.mem_cons_self p rest)
    have hrest : ∀ q ∈ rest, q.contentType ≠ "text/plain" :=
      fun q hq => h q (List.mem_cons_of_mem p hq)
    by_cases hht : p.contentType = "text/html"
    · rw [List.map_cons]
      rw [show extract_body_part_go (Except.ok p :: rest.map Except.ok) acc
            = extract_body_part_go (rest.map Except.ok) (some p) by
        simp [extract_body_part_go, hpl, hht]]
      rw [extract_body_part_go_noplain rest (some p) hrest]
      rw [List.filter_cons_of_pos (by simp [hht]), getLast?_cons_orElse]
      cases (rest.filter fun q => q.contentType = "text/html").getLast? <;>
        simp [Option.orElse]
    · rw [List.map_cons]
      rw [show extract_body_part_go (Except.ok p :: rest.map Except.ok) acc
            = extract_body_part_go (rest.map Except.ok) acc by
        simp [extract_body_part_go, hpl, hht]]
      rw [extract_body_part_go_noplain rest acc hrest]
      rw [List.filter_cons_of_neg (by simp [hht])]

/-! ## Helper lemmas about the ordering stage -/

theorem filter_key_orderedInsert (t : Nat) (a : EmailData) :
    ∀ s : List EmailData,
    (List.orderedInsert dateLE a s).filter (fun e => dateKey e = t)
      = if dateKey a = t then a :: s.filter (fun e => dateKey e = t)
        else s.filter (fun e => dateKey e = t)
  | [] => by
    by_cases hat : dateKey a = t <;> simp [List.orderedInsert, List.filter_cons, hat]
  | b :: s => by
    by_cases hr : dateLE a b
    · by_cases hat : dateKey a = t <;>
        simp [List.orderedInsert, hr, List.filter_cons, hat]
    · have hlt : dateKey b < dateKey a := Nat.lt_of_not_le hr
      have ih := filter_key_orderedInsert t a s
      by_cases hat : dateKey a = t
      · have hbt : ¬ dateKey b = t := by omega
        simp [List.orderedInsert, hr, List.filter_cons, hat, hbt, ih]
      · by_cases hbt : dateKey b = t <;>
          simp [List.orderedInsert, hr, List.filter_cons, hat, hbt, ih]

theorem filter_key_insertionSort (t : Nat) : ∀ l : List EmailData,
    (l.insertionSort dateLE).filter (fun e => dateKey e = t)
      = l.filter (fun e => dateKey e = t)
  | [] => rfl
  | a :: l => by
    have ih := filter_key_insertionSort t l
    by_cases hat : dateKey a = t <;>
      simp [List.insertionSort, filter_key_orderedInsert, List.filter_cons, hat, ih]

/-! ## Concrete inputs used by witnesses and counterexamples -/

/-- ASCII text as payload bytes. -/
def strBytes (s : String) : List Byte :=
  s.data.map fun c => (⟨c.toNat % 256, by omega⟩ : Byte)

/-- A plain-text leaf part with body "Hello". -/
def exPlainSelf : Part := ⟨"text/plain", none, .ok (some (strBytes "Hello"))⟩

/-- A message whose date header is present but unparsable. -/
def exMsgBadDate : Message :=
  ⟨some "not a date", [.text "A"], [.text "S"], false, [], exPlainSelf⟩

/-- The same message with the date header absent. -/
def exMsgNoDate : Message :=
  ⟨none, [.text "A"], [.text "S"], false, [], exPlainSelf⟩

/-- An image part whose payload decodes to empty bytes. -/
def exEmptyImg : Part := ⟨"image/png", none, .ok (some [])⟩

/-- A multipart message walking exactly that one image part. -/
def exMsgEmptyImg : Message := ⟨none, [], [], true, [.ok exEmptyImg], exPlainSelf⟩

/-- An image part whose payload decodes to the byte of "H". -/
def exGoodImg : Part := ⟨"image/png", none, .ok (some (strBytes "H"))⟩

/-- An image part whose payload decoding raises. -/
def exErrImg : Part := ⟨"image/jpeg", none, .error "decode failed"⟩

/-- A failing, an empty and a good image part, walked in that order. -/
def exPartsMix : List Part := [exErrImg, exEmptyImg, exGoodImg]

/-- The multipart message walking `exPartsMix`. -/
def exMsgMix : Message := ⟨none, [], [], true, exPartsMix.map Except.ok, exPlainSelf⟩

/-- Multipart message: one good image, then the walk itself raises. -/
def exMsgWalkFault : Message :=
  ⟨none, [], [], true, [.ok exGoodImg, .error "walk broke"], exPlainSelf⟩

/-- Clean multipart message with just the good image part. -/
def exMsgGoodImg : Message := ⟨none, [], [], true, [.ok exGoodImg], exPlainSelf⟩

/-- An HTML part declaring an unrecognized charset. -/
def exHtmlUnknownCharset : Part :=
  ⟨"text/html", some "x-unknown", .ok (some (strBytes "<p>Hi</p>"))⟩

/-- Two HTML parts, no plain-text part. -/
def exHtmlA : Part := ⟨"text/html", none, .ok (some (strBytes "<p>A</p>"))⟩

/-- The later of the two HTML parts. -/
def exHtmlB : Part := ⟨"text/html", none, .ok (some (strBytes "<p>B</p>"))⟩

/-- Walk of a multipart container followed by the two HTML parts. -/
def exParts6 : List Part := [⟨"multipart/alternative", none, .ok none⟩, exHtmlA, exHtmlB]

/-- The multipart message walking `exParts6`. -/
def exMsg6 : Message := ⟨none, [], [], true, exParts6.map Except.ok, exPlainSelf⟩

/-- Did an `Except` computation succeed? -/
def isOkE {ε α : Type} : Except ε α → Bool
  | .ok _ => true
  | .error _ => false

/-! ## The claims -/

/-- C1: the claim states `process_email` never raises, and in particular
maps a present-but-unparsable date header to an absent timestamp.  The
code guards only against a falsy header: `parsedate_to_datetime` is
called with no handler, so an unparsable date raises `ValueError` out of
`process_email` and aborts the run.  The spec's intent (no per-message
failure may abort the run) is clear and the missing handler is a slip in
the code. -/
theorem process_email_raises_on_unparsable_date :
    process_email exMsgBadDate = .error "ValueError: invalid date"
    ∧ process_email exMsgNoDate = .ok ⟨none, "A", "S", "Hello", []⟩ := by
  constructor
  · decide
  · decide

/-- C2 counterexample: a walked image part whose payload decodes to
empty bytes contributes no entry at all — `extract_images` returns `[]`
even though one image part was walked, so no diagnostic is appended and
the entry count falls short of the image-part count. -/
theorem extract_images_skips_empty_payload :
    exEmptyImg.mainType = "image"
    ∧ extract_images exMsgEmptyImg = []
    ∧ (exMsgEmptyImg.walkItems.countP fun i =>
        match i with
        | .ok p => p.mainType = "image"
        | .error _ => false) = 1 := by
  refine ⟨by decide, by decide, by decide⟩

/-- C2 (amended): on a clean multipart walk, each image part contributes
an entry exactly when its payload decode raises (an `"Image error: …"`
diagnostic) or yields non-empty bytes (a base64 entry); an image part
whose payload is empty or absent is skipped with no entry, so the entry
count equals the number of image parts of the first two kinds only. -/
theorem extract_images_entries (m : Message) (parts : List Part)
    (hm : m.multipart = true) (hw : m.walkItems = parts.map Except.ok) :
    extract_images m = parts.filterMap image_part_entry
    ∧ (∀ (p : Part) (e : String), p.mainType = "image" → p.payloadResult = .error e →
        image_part_entry p = some ⟨"text/plain", "Image error: " ++ e⟩)
    ∧ (∀ p : Part, p.mainType = "image" →
        (p.payloadResult = .ok (some []) ∨ p.payloadResult = .ok none) →
        image_part_entry p = none) := by
  refine ⟨?_, ?_, ?_⟩
  · rw [extract_images, if_pos hm, hw, extract_images_go_ok]
    simp
  · intro p e h1 h2
    simp [image_part_entry, h1, h2]
  · intro p h1 h2
    rcases h2 with h2 | h2 <;> simp [image_part_entry, h1, h2]

/-- C2 witness: the amended description evaluated on a message with one
raising, one empty and one good image part. -/
theorem extract_images_entries_witness :
    extract_images exMsgMix = exPartsMix.filterMap image_part_entry :=
  (extract_images_entries exMsgMix exPartsMix rfl rfl).1

/-- C3 counterexample: when the walk raises after an image was already
collected, the diagnostic is appended after it — the result has two
entries with the collected image retained, not a single-entry
sequence. -/
theorem extract_images_fault_keeps_collected :
    extract_images exMsgWalkFault
      = [⟨"image/png", "SA=="⟩, ⟨"text/plain", "Image extraction failed: walk broke"⟩]
    ∧ (extract_images exMsgWalkFault).length ≠ 1 := by
  refine ⟨by decide, by decide⟩

/-- C3 (amended): when a walk step raises, the loop stops and one
`"Image extraction failed: …"` diagnostic is appended to the images
already collected, which are kept; the result is a single diagnostic
entry only when the failure precedes every image. -/
theorem extract_images_fault_appends (m : Message) (parts : List Part) (e : String)
    (rest : List (Except String Part)) (hm : m.multipart = true)
    (hw : m.walkItems = parts.map Except.ok ++ .error e :: rest) :
    extract_images m
      = parts.filterMap image_part_entry
          ++ [⟨"text/plain", "Image extraction failed: " ++ e⟩] := by
  rw [extract_images, if_pos hm, hw, extract_images_go_fault]
  simp

/-- C3 witness: the amended description evaluated on the faulting walk. -/
theorem extract_images_fault_appends_witness :
    extract_images exMsgWalkFault
      = [exGoodImg].filterMap image_part_entry
          ++ [⟨"text/plain", "Image extraction failed: " ++ "walk broke"⟩] :=
  extract_images_fault_appends exMsgWalkFault [exGoodImg] "walk broke" [] rfl rfl

/-- C4 counterexample: an HTML part with an unrecognized declared
charset takes the Latin-1 fallback, which returns the decoded text with
the markup still present, not the markup-stripped text. -/
theorem decode_body_fallback_keeps_markup :
    decode_body exHtmlUnknownCharset = "<p>Hi</p>"
    ∧ htmlToText "<p>Hi</p>" = "Hi"
    ∧ decode_body exHtmlUnknownCharset ≠ htmlToText "<p>Hi</p>" := by
  refine ⟨by decide, by decide, by decide⟩

/-- C4 (amended): for an HTML part the markup is stripped exactly when
the declared-charset decode succeeds; when that decode raises and the
bytes are re-decoded as Latin-1, the result is only whitespace-trimmed
and the markup is left in place. -/
theorem decode_body_html_paths (p : Part) (bs : List Byte) (bodyContent : String)
    (hct : p.contentType = "text/html") (hpl : p.payloadResult = .ok (some bs)) :
    (decodeReplace (p.charsetParam.getD "utf-8") bs = .ok bodyContent →
      decode_body p = htmlToText bodyContent)
    ∧ (isOkE (decodeReplace (p.charsetParam.getD "utf-8") bs) = false →
      decode_body p = stripWs (latin1Decode bs)) := by
  constructor
  · intro h
    simp [decode_body, hpl, h, hct]
  · intro h
    rcases hres : decodeReplace (p.charsetParam.getD "utf-8") bs with e | s
    · simp [decode_body, hpl, hres]
    · rw [hres] at h
      simp [isOkE] at h

/-- C4 witness: the fallback path evaluated on the unknown-charset HTML
part. -/
theorem decode_body_html_paths_witness :
    decode_body exHtmlUnknownCharset = stripWs (latin1Decode (strBytes "<p>Hi</p>")) :=
  (decode_body_html_paths exHtmlUnknownCharset (strBytes "<p>Hi</p>") "" rfl rfl).2
    (by decide)

/-- C5 counterexample: an encoded segment with an unsupported charset
name is decoded by the Latin-1 retry; the header result carries that
text and contains no "[Decode Error:" marker, and later segments still
decode. -/
theorem decode_mime_no_marker_for_unknown_charset :
    decode_mime [.bytes (strBytes "abc") (some "x-unknown"), .text "tail"] = "abc tail"
    ∧ ¬ ("[Decode Error:".data
        <:+: (decode_mime [.bytes (strBytes "abc") (some "x-unknown"), .text "tail"]).data) := by
  refine ⟨by decide, by decide⟩

/-- C5 (amended): a segment with an unsupported charset name decodes via
the Latin-1 retry to the corresponding text — never to a
"[Decode Error:" marker — and the surrounding segments decode
independently of it. -/
theorem decode_mime_unknown_charset_latin1 (pre post : List HeaderSeg)
    (b : List Byte) (enc : String) (henc : knownEncoding enc = false) :
    decode_mime (pre ++ .bytes b (some enc) :: post)
      = String.intercalate " " (pre.map decodeSeg ++ latin1Decode b :: post.map decodeSeg)
    ∧ decodeSeg (.bytes b (some enc)) = latin1Decode b := by
  have hseg : decodeSeg (.bytes b (some enc)) = latin1Decode b := by
    have h1 : decodeReplace enc b = .error ("LookupError: unknown encoding: " ++ enc) := by
      simp [decodeReplace, henc]
    simp [decodeSeg, h1, decodeReplace_latin1]
  refine ⟨?_, hseg⟩
  rw [decode_mime]
  simp [hseg]

/-- C5 witness: the unknown-charset segment decoded via Latin-1. -/
theorem decode_mime_unknown_charset_latin1_witness :
    decodeSeg (.bytes (strBytes "abc") (some "x-unknown")) = latin1Decode (strBytes "abc") :=
  (decode_mime_unknown_charset_latin1 [] [HeaderSeg.text "tail"] (strBytes "abc")
    "x-unknown" (by decide)).2

/-- C6: on a multipart message with a clean walk, the candidate is the
first plain-text part in walk order (the walk stops there, whatever HTML
preceded it); with no plain-text part the fallback is the last HTML part
of the walk; with neither, candidate and fallback are both absent. -/
theorem extract_body_part_spec (m : Message) (parts : List Part)
    (hm : m.multipart = true) (hw : m.walkItems = parts.map Except.ok) :
    (∃ fb, extract_body_part m
      = .ok (parts.find? fun p => p.contentType = "text/plain", fb))
    ∧ ((∀ p ∈ parts, p.contentType ≠ "text/plain") →
        extract_body_part m
          = .ok (none, (parts.filter fun p => p.contentType = "text/html").getLast?))
    ∧ ((∀ p ∈ parts, p.contentType ≠ "text/plain" ∧ p.contentType ≠ "text/html") →
        extract_body_part m = .ok (none, none)) := by
  have hunfold : extract_body_part m = extract_body_part_go (parts.map Except.ok) none := by
    rw [extract_body_part, if_pos hm, hw]
  have horelse : ∀ x : Option Part, (x.orElse fun _ => none) = x := by
    intro x
    cases x <;> rfl
  refine ⟨?_, ?_, ?_⟩
  · rw [hunfold]
    exact extract_body_part_go_cand parts none
  · intro h
    rw [hunfold, extract_body_part_go_noplain parts none h, horelse]
  · intro h
    rw [hunfold, extract_body_part_go_noplain parts none (fun p hp => (h p hp).1), horelse]
    have hnil : (parts.filter fun p => p.contentType = "text/html") = [] := by
      rw [List.filter_eq_nil_iff]
      intro p hp
      simp [(h p hp).2]
    rw [hnil]
    rfl

/-- C6 witness: a walk with two HTML parts and no plain-text part
selects no candidate and the last HTML part as fallback. -/
theorem extract_body_part_spec_witness :
    extract_body_part exMsg6 = .ok (none, some exHtmlB) := by
  have h := (extract_body_part_spec exMsg6 exParts6 rfl rfl).2.1 (by decide)
  rw [h]
  decide

/-- C7: the ordering stage returns the dated records first — a sorted
permutation of them whose per-timestamp sublists keep their original
order (the stability of the sort) — followed by the undated records in
their original relative order, never interleaved with dated ones. -/
theorem order_spec (l : List EmailData) :
    ∃ d u, order l = d ++ u
      ∧ u = l.filter (fun e => e.date.isNone)
      ∧ d.Perm (l.filter fun e => e.date.isSome)
      ∧ d.Sorted dateLE
      ∧ (d.all fun e => e.date.isSome) = true
      ∧ (u.all fun e => e.date.isNone) = true
      ∧ ∀ t : Nat, d.filter (fun e => e.date = some t)
          = l.filter (fun e => e.date = some t) := by
  have hS : ∀ e ∈ (l.filter fun e => e.date.isSome).insertionSort dateLE,
      e.date.isSome = true :=
    fun e he => (List.mem_filter.1 ((List.mem_insertionSort dateLE).1 he)).2
  have hX : ∀ e ∈ (l.filter fun e => e.date.isSome), e.date.isSome = true :=
    fun e he => (List.mem_filter.1 he).2
  have hcong : ∀ (t : Nat) (s : List EmailData), (∀ e ∈ s, e.date.isSome = true) →
      s.filter (fun e => e.date = some t) = s.filter (fun e => dateKey e = t) := by
    intro t s hs
    apply List.filter_congr
    intro e he
    rcases hd : e.date with _ | v
    · have := hs e he
      rw [hd] at this
      simp at this
    · simp [dateKey, hd]
  refine ⟨(l.filter fun e => e.date.isSome).insertionSort dateLE,
    l.filter (fun e => e.date.isNone), ?_, ?_, ?_, ?_, ?_, ?_, ?_⟩
  · rfl
  · rfl
  · exact List.perm_insertionSort dateLE _
  · exact List.sorted_insertionSort dateLE _
  · rw [List.all_eq_true]
    exact hS
  · rw [List.all_eq_true]
    intro e he
    exact (List.mem_filter.1 he).2
  · intro t
    have hlast : (l.filter fun e => e.date.isSome).filter (fun e => e.date = some t)
        = l.filter (fun e => e.date = some t) := by
      rw [List.filter_filter]
      apply List.filter_congr
      intro e he
      rcases hd : e.date with _ | v <;> simp [hd]
    calc ((l.filter fun e => e.date.isSome).insertionSort dateLE).filter
          (fun e => e.date = some t)
        = ((l.filter fun e => e.date.isSome).insertionSort dateLE).filter
          (fun e => dateKey e = t) := hcong t _ hS
      _ = (l.filter fun e => e.date.isSome).filter (fun e => dateKey e = t) :=
          filter_key_insertionSort t _
      _ = (l.filter fun e => e.date.isSome).filter (fun e => e.date = some t) :=
          (hcong t _ hX).symm
      _ = l.filter (fun e => e.date = some t) := hlast

/-- C8: applying the ordering stage twice yields the same sequence as
applying it once: the dated block of an ordered sequence is already
sorted and the undated block is unchanged. -/
theorem order_idempotent (l : List EmailData) : order (order l) = order l := by
  have hS : ∀ e ∈ (l.filter fun e => e.date.isSome).insertionSort dateLE,
      e.date.isSome = true :=
    fun e he => (List.mem_filter.1 ((List.mem_insertionSort dateLE).1 he)).2
  have hU : ∀ e ∈ (l.filter fun e => e.date.isNone), e.date.isNone = true :=
    fun e he => (List.mem_filter.1 he).2
  have hUnil : ((l.filter fun e => e.date.isNone).filter fun e => e.date.isSome) = [] := by
    rw [List.filter_eq_nil_iff]
    intro e he
    have hn := hU e he
    rcases hd : e.date with _ | v
    · simp [hd]
    · rw [hd] at hn
      simp at hn
  have hSnil : (((l.filter fun e => e.date.isSome).insertionSort dateLE).filter
      fun e => e.date.isNone) = [] := by
    rw [List.filter_eq_nil_iff]
    intro e he
    have hs := hS e he
    rcases hd : e.date with _ | v
    · rw [hd] at hs
      simp at hs
    · simp [hd]
  have h1 : ((order l).filter fun e => e.date.isSome)
      = (l.filter fun e => e.date.isSome).insertionSort dateLE := by
    rw [order, List.filter_append, List.filter_eq_self.mpr hS, hUnil, List.append_nil]
  have h2 : ((order l).filter fun e => e.date.isNone)
      = l.filter fun e => e.date.isNone := by
    rw [order, List.filter_append, hSnil, List.filter_eq_self.mpr hU, List.nil_append]
  show ((order l).filter fun e => e.date.isSome).insertionSort dateLE
      ++ ((order l).filter fun e => e.date.isNone) = order l
  rw [h1, h2, List.Sorted.insertionSort_eq (List.sorted_insertionSort dateLE _)]
  rfl

/-- C9: an image part whose payload decoded to non-empty bytes yields an
entry carrying the part's content type and the base64 text of those
bytes, and base64-decoding that text gives back exactly the original
bytes. -/
theorem image_payload_roundtrip (m : Message) (parts : List Part) (p : Part)
    (bs : List Byte) (hm : m.multipart = true) (hw : m.walkItems = parts.map Except.ok)
    (hp : p ∈ parts) (himg : p.mainType = "image")
    (hpl : p.payloadResult = .ok (some bs)) (hne : bs ≠ []) :
    (⟨p.contentType, b64encodeString bs⟩ : ImagePayload) ∈ extract_images m
    ∧ b64decodeString (b64encodeString bs) = some bs := by
  constructor
  · rw [extract_images, if_pos hm, hw, extract_images_go_ok, List.nil_append]
    exact List.mem_filterMap.2 ⟨p, hp, by simp [image_part_entry, himg, hpl, hne]⟩
  · exact b64_roundtrip bs

/-- C9 witness: the round-trip evaluated on a one-byte PNG payload. -/
theorem image_payload_roundtrip_witness :
    (⟨exGoodImg.contentType, b64encodeString (strBytes "H")⟩ : ImagePayload)
      ∈ extract_images exMsgGoodImg
    ∧ b64decodeString (b64encodeString (strBytes "H")) = some (strBytes "H") :=
  image_payload_roundtrip exMsgGoodImg [exGoodImg] exGoodImg (strBytes "H")
    rfl rfl (List.mem_singleton.mpr rfl) (by decide) rfl (by decide)

/-- C10: inside `decode_mime` the "[Decode Error:" placeholder branch is
unreachable and every byte segment decodes to a string: a recognized
charset decodes totally under substitution, and an unrecognized one
falls back to Latin-1, which succeeds on every byte sequence. -/
theorem decode_mime_total_no_marker :
    (∀ b : List Byte, decodeReplace "latin-1" b = .ok (latin1Decode b))
    ∧ (∀ (b : List Byte) (enc : Option String),
        decodeSeg (.bytes b enc)
          = if knownEncoding (enc.getD "utf-8") = true
            then decodeKnown (enc.getD "utf-8") b
            else latin1Decode b) := by
  refine ⟨decodeReplace_latin1, ?_⟩
  intro b enc
  by_cases h : knownEncoding (enc.getD "utf-8") = true
  · simp [decodeSeg, decodeReplace, h]
  · have h1 : decodeReplace (enc.getD "utf-8") b
        = .error ("LookupError: unknown encoding: " ++ enc.getD "utf-8") := by
      simp [decodeReplace, h]
    simp [decodeSeg, h1, decodeReplace_latin1, h]

end TakeoutToPdf
